import Mathlib

/-!
Shallow embedding of `pysys-examples/fibonacci/utilities/src/fibonacci.c`.

The program is a single `main`: with exactly one command-line argument it
parses it with `atoi`, allocates a `long` buffer of that many elements,
seeds indices 0 and 1, fills indices `2 .. max_index-1` with the wrapping
sum of the two preceding elements (printing `Calculating index i` to
stderr before each computed element), then prints every element to stdout
with `%lu` followed by a newline; with any other argument count it prints
a usage line to stderr.  It always returns 0.

Modelling choices:
* `w` is the bit width of the stored integer type (`long`); stored values
  are natural numbers reduced modulo `2 ^ w`, matching the two's-complement
  bit pattern that `%lu` prints as an unsigned decimal.
* The `atoi` step is abstracted: the model receives the already-parsed
  integer argument values (`args : List Int`), and `max_index` is the
  argument clamped to `Nat` exactly as the signed loop bounds behave
  (a non-positive `max_index` gives zero trips of both loops).
* Every observable action is an event in a trace: a stdout line, a stderr
  line, a buffer write `write i v`, or a buffer element access `readAt i`.
  Each `out`/`err` line event stands for one newline-terminated line;
  the trailing newline of the `fprintf` format is the line separator.
* Both `for` loops are translated by trip count (`max_index - i` with the
  initial `i`), which is structural recursion and coincides with the
  signed-comparison loop bounds of the source.
-/

namespace Fibc

/-- The character for a single decimal digit `d < 10`, as `printf` renders it. -/
def decChar (d : Nat) : Char := Char.ofNat (48 + d)

/-- Digit loop of decimal rendering: repeatedly take `n % 10` and divide by 10,
accumulating digits most-significant first.  The first argument is fuel
bounding the number of iterations (`n` itself always suffices). -/
def natDecAuxF : Nat → Nat → List Char → List Char
  | 0, _, acc => acc
  | fuel + 1, n, acc =>
      if n = 0 then acc else natDecAuxF fuel (n / 10) (decChar (n % 10) :: acc)

/-- Decimal rendering of an unsigned value, as `printf("%lu", v)` produces it. -/
def natDecStr (n : Nat) : String :=
  if n = 0 then "0" else String.mk (natDecAuxF n n [])

/-- The contents of the Fibonacci buffer cell `i` after the fill loop, for
`max_index > i`: seeds 0 and 1, then the sum of the two preceding cells
reduced modulo `2 ^ w` (fixed-width wrap-around of the `long` addition
`fib[i-1] + fib[i-2]`). -/
def fibSeq (w : Nat) : Nat → Nat
  | 0 => 0
  | 1 => 1
  | n + 2 => (fibSeq w (n + 1) + fibSeq w n) % 2 ^ w

/-- One observable event of a run: a stderr line, a stdout line, a buffer
write of a value at an index, or a buffer element access at an index. -/
inductive Ev where
  | err : String → Ev
  | out : String → Ev
  | write : Nat → Nat → Ev
  | readAt : Nat → Ev
deriving DecidableEq

/-- The fill loop `for(i=2; i<max_index; i++)` of `main`, translated by trip
count `cnt = max_index - i`.  Each iteration prints `Calculating index i` to
stderr, then evaluates `fib[i-1] + fib[i-2]` (two element accesses) with the
`long` addition wrapping modulo `2 ^ w`, and stores the result at `i`.
Returns the final buffer and the trace of the loop. -/
def fillLoop (w : Nat) : Nat → Nat → List Nat → List Nat × List Ev
  | 0, _, buf => (buf, [])
  | cnt + 1, i, buf =>
      let v := (buf.getD (i - 1) 0 + buf.getD (i - 2) 0) % 2 ^ w
      let r := fillLoop w cnt (i + 1) (buf ++ [v])
      (r.1,
        Ev.err ("Calculating index " ++ natDecStr i) ::
          Ev.readAt (i - 1) :: Ev.readAt (i - 2) :: Ev.write i v :: r.2)

/-- The print loop `for(i=0; i<max_index; i++)` of `main`, translated by trip
count.  Each iteration accesses `fib[i]` and prints it to stdout with `%lu`. -/
def printLoop (buf : List Nat) : Nat → Nat → List Ev
  | 0, _ => []
  | cnt + 1, i =>
      Ev.readAt i :: Ev.out (natDecStr (buf.getD i 0)) :: printLoop buf cnt (i + 1)

/-- The trace the fill loop produces when its buffer holds the `fibSeq`
prefix: for each index `k = i, i+1, ..., i+cnt-1` in order, a stderr line,
the two element accesses, and the write of `fibSeq w k`.  Used to
characterise `fillLoop`. -/
def fillTrace (w : Nat) : Nat → Nat → List Ev
  | 0, _ => []
  | cnt + 1, i =>
      Ev.err ("Calculating index " ++ natDecStr i) ::
        Ev.readAt (i - 1) :: Ev.readAt (i - 2) ::
          Ev.write i (fibSeq w i) :: fillTrace w cnt (i + 1)

/-- `main` of fibonacci.c.  `w` is the bit width of `long`, `progName` is
`argv[0]`, `args` the parsed values of the remaining arguments (`argc == 2`
corresponds to `args = [n]`).  Returns the event trace and the exit status.

With one argument: `max_index = atoi(argv[1])` (here the given value, clamped
to `Nat` as the signed loop comparisons dictate), the seeds `fib[0] = 0` and
`fib[1] = 1` are written unconditionally, then the fill loop runs from
`i = 2` and the print loop from `i = 0`.  Otherwise a usage line goes to
stderr.  Both branches return 0. -/
def runFib (w : Nat) (progName : String) (args : List Int) : List Ev × Nat :=
  match args with
  | [nArg] =>
      let maxIndex := nArg.toNat
      let fill := fillLoop w (maxIndex - 2) 2 [0, 1]
      (Ev.write 0 0 :: Ev.write 1 1 ::
        (fill.2 ++ printLoop fill.1 maxIndex 0), 0)
  | _ => ([Ev.err ("Usage: " ++ progName ++ " <index>")], 0)

/-- The stdout lines of a trace, in order. -/
def outLines (t : List Ev) : List String :=
  t.filterMap fun e => match e with | Ev.out s => some s | _ => none

/-- The stderr lines of a trace, in order. -/
def errLines (t : List Ev) : List String :=
  t.filterMap fun e => match e with | Ev.err s => some s | _ => none

/-- The indices of all buffer writes in a trace, in order. -/
def writeIdxs (t : List Ev) : List Nat :=
  t.filterMap fun e => match e with | Ev.write i _ => some i | _ => none

/-- The (index, value) pairs of all buffer writes in a trace, in order. -/
def writeEvsOf (t : List Ev) : List (Nat × Nat) :=
  t.filterMap fun e => match e with | Ev.write i v => some (i, v) | _ => none

/-- The indices of all buffer element accesses in a trace, in order. -/
def readIdxs (t : List Ev) : List Nat :=
  t.filterMap fun e => match e with | Ev.readAt i => some i | _ => none

/-- Stdout of a run of the program. -/
def stdoutOf (w : Nat) (progName : String) (args : List Int) : List String :=
  outLines (runFib w progName args).1

/-- Stderr of a run of the program. -/
def stderrOf (w : Nat) (progName : String) (args : List Int) : List String :=
  errLines (runFib w progName args).1

example : stdoutOf 64 "fib" [5] = ["0", "1", "1", "2", "3"] := by decide
example : stderrOf 64 "fib" [5] =
    ["Calculating index 2", "Calculating index 3", "Calculating index 4"] := by decide
example : stdoutOf 64 "fib" [] = [] := by decide
example : stderrOf 64 "fib" [] = ["Usage: fib <index>"] := by decide
example : stdoutOf 64 "fib" [1] = ["0"] := by decide
example : (runFib 64 "fib" [10]).2 = 0 := by decide
example : stdoutOf 4 "fib" [10] = ["0", "1", "1", "2", "3", "5", "8", "13", "5", "2"] := by
  decide

/-! ### Projection algebra -/

lemma outLines_append (t u : List Ev) : outLines (t ++ u) = outLines t ++ outLines u :=
  List.filterMap_append t u _

lemma errLines_append (t u : List Ev) : errLines (t ++ u) = errLines t ++ errLines u :=
  List.filterMap_append t u _

lemma writeIdxs_append (t u : List Ev) : writeIdxs (t ++ u) = writeIdxs t ++ writeIdxs u :=
  List.filterMap_append t u _

lemma writeEvsOf_append (t u : List Ev) : writeEvsOf (t ++ u) = writeEvsOf t ++ writeEvsOf u :=
  List.filterMap_append t u _

lemma readIdxs_append (t u : List Ev) : readIdxs (t ++ u) = readIdxs t ++ readIdxs u :=
  List.filterMap_append t u _

/-! ### Buffer contents -/

lemma getD_range_map (f : Nat → Nat) {i j : Nat} (h : j < i) :
    ((List.range i).map f).getD j 0 = f j := by
  rw [List.getD_eq_getElem?_getD, List.getElem?_map, List.getElem?_range h]
  rfl

lemma range_two_map (w : Nat) : (List.range 2).map (fibSeq w) = [0, 1] := rfl

lemma fibSeq_two_step (w i : Nat) (h : 2 ≤ i) :
    fibSeq w i = (fibSeq w (i - 1) + fibSeq w (i - 2)) % 2 ^ w := by
  obtain ⟨m, rfl⟩ : ∃ m, i = m + 2 := ⟨i - 2, by omega⟩
  simp [fibSeq]

lemma fibSeq_lt (w : Nat) (hw : 1 ≤ w) : ∀ k, fibSeq w k < 2 ^ w
  | 0 => Nat.pos_pow_of_pos w (by norm_num)
  | 1 => by
      have h2 : (2 : Nat) ^ 1 ≤ 2 ^ w := Nat.pow_le_pow_right (by norm_num) hw
      have h1 : (1 : Nat) < 2 ^ 1 := by norm_num
      exact lt_of_lt_of_le h1 h2
  | k + 2 => Nat.mod_lt _ (Nat.pos_pow_of_pos w (by norm_num))

/-! ### Loop characterisations -/

lemma fillLoop_eq (w : Nat) :
    ∀ cnt i, 2 ≤ i →
      fillLoop w cnt i ((List.range i).map (fibSeq w)) =
        ((List.range (i + cnt)).map (fibSeq w), fillTrace w cnt i) := by
  intro cnt
  induction cnt with
  | zero => intro i _; simp [fillLoop, fillTrace]
  | succ c ih =>
      intro i hi
      have h1 : ((List.range i).map (fibSeq w)).getD (i - 1) 0 = fibSeq w (i - 1) :=
        getD_range_map _ (by omega)
      have h2 : ((List.range i).map (fibSeq w)).getD (i - 2) 0 = fibSeq w (i - 2) :=
        getD_range_map _ (by omega)
      have hv : (((List.range i).map (fibSeq w)).getD (i - 1) 0 +
          ((List.range i).map (fibSeq w)).getD (i - 2) 0) % 2 ^ w = fibSeq w i := by
        rw [h1, h2, ← fibSeq_two_step w i hi]
      have hbuf : (List.range i).map (fibSeq w) ++ [fibSeq w i] =
          (List.range (i + 1)).map (fibSeq w) := by
        simp [List.range_succ]
      have harith : i + 1 + c = i + (c + 1) := by omega
      simp only [fillLoop, hv, hbuf, ih (i + 1) (by omega), harith, fillTrace]

lemma outLines_printLoop (buf : List Nat) :
    ∀ cnt i, outLines (printLoop buf cnt i) =
      (List.range' i cnt).map fun k => natDecStr (buf.getD k 0) := by
  intro cnt
  induction cnt with
  | zero => intro i; simp [printLoop, outLines]
  | succ c ih =>
      intro i
      simp only [outLines] at ih ⊢
      simp [printLoop, List.range'_succ, ih]

lemma errLines_printLoop (buf : List Nat) :
    ∀ cnt i, errLines (printLoop buf cnt i) = [] := by
  intro cnt
  induction cnt with
  | zero => intro i; simp [printLoop, errLines]
  | succ c ih =>
      intro i
      simp only [errLines] at ih ⊢
      simp [printLoop, ih]

lemma writeEvsOf_printLoop (buf : List Nat) :
    ∀ cnt i, writeEvsOf (printLoop buf cnt i) = [] := by
  intro cnt
  induction cnt with
  | zero => intro i; simp [printLoop, writeEvsOf]
  | succ c ih =>
      intro i
      simp only [writeEvsOf] at ih ⊢
      simp [printLoop, ih]

lemma writeIdxs_printLoop (buf : List Nat) :
    ∀ cnt i, writeIdxs (printLoop buf cnt i) = [] := by
  intro cnt
  induction cnt with
  | zero => intro i; simp [printLoop, writeIdxs]
  | succ c ih =>
      intro i
      simp only [writeIdxs] at ih ⊢
      simp [printLoop, ih]

lemma readIdxs_printLoop (buf : List Nat) :
    ∀ cnt i, readIdxs (printLoop buf cnt i) = List.range' i cnt := by
  intro cnt
  induction cnt with
  | zero => intro i; simp [printLoop, readIdxs]
  | succ c ih =>
      intro i
      simp only [readIdxs] at ih ⊢
      simp [printLoop, List.range'_succ, ih]

lemma errLines_fillTrace (w : Nat) :
    ∀ cnt i, errLines (fillTrace w cnt i) =
      (List.range' i cnt).map fun k => "Calculating index " ++ natDecStr k := by
  intro cnt
  induction cnt with
  | zero => intro i; simp [fillTrace, errLines]
  | succ c ih =>
      intro i
      simp only [errLines] at ih ⊢
      simp [fillTrace, List.range'_succ, ih]

lemma outLines_fillTrace (w : Nat) :
    ∀ cnt i, outLines (fillTrace w cnt i) = [] := by
  intro cnt
  induction cnt with
  | zero => intro i; simp [fillTrace, outLines]
  | succ c ih =>
      intro i
      simp only [outLines] at ih ⊢
      simp [fillTrace, ih]

lemma writeEvsOf_fillTrace (w : Nat) :
    ∀ cnt i, writeEvsOf (fillTrace w cnt i) =
      (List.range' i cnt).map fun k => (k, fibSeq w k) := by
  intro cnt
  induction cnt with
  | zero => intro i; simp [fillTrace, writeEvsOf]
  | succ c ih =>
      intro i
      simp only [writeEvsOf] at ih ⊢
      simp [fillTrace, List.range'_succ, ih]

lemma writeIdxs_fillTrace (w : Nat) :
    ∀ cnt i, writeIdxs (fillTrace w cnt i) = List.range' i cnt := by
  intro cnt
  induction cnt with
  | zero => intro i; simp [fillTrace, writeIdxs]
  | succ c ih =>
      intro i
      simp only [writeIdxs] at ih ⊢
      simp [fillTrace, List.range'_succ, ih]

lemma readIdxs_fillTrace_lt (w : Nat) :
    ∀ cnt i, ∀ j ∈ readIdxs (fillTrace w cnt i), j < i + cnt := by
  intro cnt
  induction cnt with
  | zero => intro i j hj; simp [fillTrace, readIdxs] at hj
  | succ c ih =>
      intro i j hj
      simp only [readIdxs] at ih hj
      simp only [fillTrace, List.filterMap_cons] at hj
      simp only [List.mem_cons] at hj
      rcases hj with rfl | rfl | hj
      · omega
      · omega
      · have := ih (i + 1) j hj
        omega

lemma err_before_write (w : Nat) :
    ∀ cnt i k, i ≤ k → k < i + cnt →
      ∃ a b : Nat, a < b ∧
        (fillTrace w cnt i)[a]? = some (Ev.err ("Calculating index " ++ natDecStr k)) ∧
        (fillTrace w cnt i)[b]? = some (Ev.write k (fibSeq w k)) := by
  intro cnt
  induction cnt with
  | zero => intro i k h1 h2; omega
  | succ c ih =>
      intro i k h1 h2
      rcases eq_or_lt_of_le h1 with rfl | hlt
      · exact ⟨0, 3, by omega, by simp [fillTrace], by simp [fillTrace]⟩
      · obtain ⟨a, b, hab, ha, hb⟩ := ih (i + 1) k hlt (by omega)
        have hsplit : fillTrace w (c + 1) i =
            [Ev.err ("Calculating index " ++ natDecStr i), Ev.readAt (i - 1),
              Ev.readAt (i - 2), Ev.write i (fibSeq w i)] ++ fillTrace w c (i + 1) := rfl
        refine ⟨a + 4, b + 4, by omega, ?_, ?_⟩
        · rw [hsplit, List.getElem?_append_right (by simp)]
          simpa using ha
        · rw [hsplit, List.getElem?_append_right (by simp)]
          simpa using hb

/-! ### The trace of a run with one argument of value at least 2 -/

lemma run_trace (w : Nat) (prog : String) (nArg : Int) (h : 2 ≤ nArg.toNat) :
    (runFib w prog [nArg]).1 =
      Ev.write 0 0 :: Ev.write 1 1 ::
        (fillTrace w (nArg.toNat - 2) 2 ++
          printLoop ((List.range nArg.toNat).map (fibSeq w)) nArg.toNat 0) := by
  have hfill := fillLoop_eq w (nArg.toNat - 2) 2 (le_refl 2)
  rw [range_two_map] at hfill
  have h22 : 2 + (nArg.toNat - 2) = nArg.toNat := by omega
  rw [h22] at hfill
  simp only [runFib, hfill]

lemma stdout_run (w N : Nat) (prog : String) (h : 2 ≤ N) :
    stdoutOf w prog [(N : Int)] = (List.range N).map fun k => natDecStr (fibSeq w k) := by
  have hN : ((N : Int)).toNat = N := Int.toNat_natCast N
  rw [stdoutOf, run_trace w prog (N : Int) (by rw [hN]; exact h), hN]
  have hcons : ∀ t : List Ev, outLines (Ev.write 0 0 :: Ev.write 1 1 :: t) = outLines t :=
    fun t => rfl
  rw [hcons, outLines_append, outLines_fillTrace, outLines_printLoop]
  rw [List.nil_append, ← List.range_eq_range' ]
  refine List.map_congr_left fun k hk => ?_
  rw [getD_range_map _ (List.mem_range.mp hk)]

lemma stderr_run (w N : Nat) (prog : String) (h : 2 ≤ N) :
    stderrOf w prog [(N : Int)] =
      (List.range' 2 (N - 2)).map fun k => "Calculating index " ++ natDecStr k := by
  have hN : ((N : Int)).toNat = N := Int.toNat_natCast N
  rw [stderrOf, run_trace w prog (N : Int) (by rw [hN]; exact h), hN]
  have hcons : ∀ t : List Ev, errLines (Ev.write 0 0 :: Ev.write 1 1 :: t) = errLines t :=
    fun t => rfl
  rw [hcons, errLines_append, errLines_fillTrace, errLines_printLoop, List.append_nil]

/-! ### Decimal rendering facts -/

lemma decChar_isDigit_fin : ∀ d : Fin 10, (decChar d.1).isDigit := by decide

lemma decChar_isDigit {d : Nat} (h : d < 10) : (decChar d).isDigit :=
  decChar_isDigit_fin ⟨d, h⟩

lemma isDigit_ne_dash {c : Char} (h : c.isDigit) : c ≠ '-' := by
  intro hc
  subst hc
  simp [Char.isDigit] at h

lemma natDecAuxF_digits :
    ∀ fuel n acc, (∀ c ∈ acc, c.isDigit) → ∀ c ∈ natDecAuxF fuel n acc, c.isDigit := by
  intro fuel
  induction fuel with
  | zero => intro n acc hacc; simpa [natDecAuxF] using hacc
  | succ f ih =>
      intro n acc hacc c hc
      by_cases hn : n = 0
      · rw [natDecAuxF, if_pos hn] at hc
        exact hacc c hc
      · rw [natDecAuxF, if_neg hn] at hc
        refine ih (n / 10) _ ?_ c hc
        intro c' hc'
        rcases List.mem_cons.mp hc' with rfl | h'
        · exact decChar_isDigit (Nat.mod_lt _ (by norm_num))
        · exact hacc c' h'

lemma natDecAuxF_length :
    ∀ fuel n acc, acc.length ≤ (natDecAuxF fuel n acc).length := by
  intro fuel
  induction fuel with
  | zero => intro n acc; simp [natDecAuxF]
  | succ f ih =>
      intro n acc
      by_cases hn : n = 0
      · simp [natDecAuxF, hn]
      · rw [natDecAuxF, if_neg hn]
        calc acc.length ≤ (decChar (n % 10) :: acc).length := by simp
          _ ≤ _ := ih (n / 10) _

lemma natDecStr_ne_nil (n : Nat) : (natDecStr n).data ≠ [] := by
  rw [natDecStr]
  by_cases hn : n = 0
  · rw [if_pos hn]; decide
  · rw [if_neg hn]
    show natDecAuxF n n [] ≠ []
    intro h
    cases n with
    | zero => exact hn rfl
    | succ m =>
        have hstep : natDecAuxF (m + 1) (m + 1) [] =
            natDecAuxF m ((m + 1) / 10) [decChar ((m + 1) % 10)] := by
          rw [natDecAuxF, if_neg (by omega)]
        have hlen := natDecAuxF_length m ((m + 1) / 10) [decChar ((m + 1) % 10)]
        rw [← hstep, h] at hlen
        simp at hlen

lemma natDecStr_digits (n : Nat) : ∀ c ∈ (natDecStr n).data, c.isDigit := by
  rw [natDecStr]
  by_cases hn : n = 0
  · rw [if_pos hn]; decide
  · rw [if_neg hn]
    show ∀ c ∈ natDecAuxF n n [], c.isDigit
    exact natDecAuxF_digits n n [] (by simp)

/-! ### Generic single-argument run lemmas -/

lemma stdout_run_any (w : Nat) (prog : String) (nArg : Int) (h : 2 ≤ nArg.toNat) :
    stdoutOf w prog [nArg] = (List.range nArg.toNat).map fun k => natDecStr (fibSeq w k) := by
  rw [stdoutOf, run_trace w prog nArg h]
  have hcons : ∀ t : List Ev, outLines (Ev.write 0 0 :: Ev.write 1 1 :: t) = outLines t :=
    fun t => rfl
  rw [hcons, outLines_append, outLines_fillTrace, outLines_printLoop]
  rw [List.nil_append, ← List.range_eq_range']
  refine List.map_congr_left fun k hk => ?_
  rw [getD_range_map _ (List.mem_range.mp hk)]

lemma getElem?_cons_cons_append_left {e0 e1 : Ev} {t u : List Ev} {a : Nat}
    (ha : a < t.length) : (e0 :: e1 :: (t ++ u))[a + 2]? = t[a]? := by
  have h2 : (e0 :: e1 :: (t ++ u)) = [e0, e1] ++ (t ++ u) := rfl
  rw [h2, List.getElem?_append_right (by simp)]
  have h3 : a + 2 - ([e0, e1] : List Ev).length = a := by simp
  rw [h3, List.getElem?_append, if_pos ha]

/-! ### Claims -/

/-- C1: for every N ≥ 2 given as the single argument, the value printed on
stdout line i (0-indexed) equals the value on line i-1 plus the value on
line i-2 as fixed-width integers wrapping modulo `2 ^ w`, for every i with
2 ≤ i ≤ N-1. -/
theorem fib_output_recurrence (w N i : Nat) (prog : String)
    (hN : 2 ≤ N) (h2 : 2 ≤ i) (hi : i < N) :
    ∃ a b c : Nat,
      (stdoutOf w prog [(N : Int)])[i - 2]? = some (natDecStr a) ∧
      (stdoutOf w prog [(N : Int)])[i - 1]? = some (natDecStr b) ∧
      (stdoutOf w prog [(N : Int)])[i]? = some (natDecStr c) ∧
      c = (b + a) % 2 ^ w := by
  refine ⟨fibSeq w (i - 2), fibSeq w (i - 1), fibSeq w i, ?_, ?_, ?_, ?_⟩
  · rw [stdout_run w N prog hN, List.getElem?_map, List.getElem?_range (by omega)]; rfl
  · rw [stdout_run w N prog hN, List.getElem?_map, List.getElem?_range (by omega)]; rfl
  · rw [stdout_run w N prog hN, List.getElem?_map, List.getElem?_range hi]; rfl
  · exact fibSeq_two_step w i h2

/-- Witness for C1 at w = 8, N = 5, i = 4. -/
theorem fib_output_recurrence_witness :
    (2 ≤ 5 ∧ 2 ≤ 4 ∧ 4 < 5) ∧
      ∃ a b c : Nat,
        (stdoutOf 8 "fibonacci" [((5 : Nat) : Int)])[4 - 2]? = some (natDecStr a) ∧
        (stdoutOf 8 "fibonacci" [((5 : Nat) : Int)])[4 - 1]? = some (natDecStr b) ∧
        (stdoutOf 8 "fibonacci" [((5 : Nat) : Int)])[4]? = some (natDecStr c) ∧
        c = (b + a) % 2 ^ 8 :=
  ⟨by omega,
    fib_output_recurrence 8 5 4 "fibonacci" (by omega) (by omega) (by omega)⟩

/-- C2: for every N ≥ 2 given as the single argument, the first stdout line
is the decimal value 0 and the second is the decimal value 1. -/
theorem fib_output_seeds (w N : Nat) (prog : String) (hN : 2 ≤ N) :
    (stdoutOf w prog [(N : Int)])[0]? = some "0" ∧
    (stdoutOf w prog [(N : Int)])[1]? = some "1" := by
  constructor
  · rw [stdout_run w N prog hN, List.getElem?_map, List.getElem?_range (by omega)]
    show some (natDecStr (fibSeq w 0)) = some "0"
    have h0 : fibSeq w 0 = 0 := rfl
    rw [h0]; decide
  · rw [stdout_run w N prog hN, List.getElem?_map, List.getElem?_range (by omega)]
    show some (natDecStr (fibSeq w 1)) = some "1"
    have h1 : fibSeq w 1 = 1 := rfl
    rw [h1]; decide

/-- Witness for C2 at w = 64, N = 2. -/
theorem fib_output_seeds_witness :
    2 ≤ 2 ∧
      (stdoutOf 64 "fibonacci" [((2 : Nat) : Int)])[0]? = some "0" ∧
      (stdoutOf 64 "fibonacci" [((2 : Nat) : Int)])[1]? = some "1" :=
  ⟨by omega, fib_output_seeds 64 2 "fibonacci" (by omega)⟩

/-- C3: for every N ≥ 2 given as the single argument, exactly N lines are
written to stdout, each a nonempty string of decimal digits (one decimal
integer and nothing else; the terminating newline is the line separator of
the trace model). -/
theorem stdout_count_and_form (w N : Nat) (prog : String) (hN : 2 ≤ N) :
    (stdoutOf w prog [(N : Int)]).length = N ∧
    ∀ l ∈ stdoutOf w prog [(N : Int)], ∃ v : Nat, l = natDecStr v ∧
      l.data ≠ [] ∧ ∀ c ∈ l.data, c.isDigit := by
  rw [stdout_run w N prog hN]
  constructor
  · simp
  · intro l hl
    obtain ⟨k, hk, rfl⟩ := List.mem_map.mp hl
    exact ⟨fibSeq w k, rfl, natDecStr_ne_nil _, natDecStr_digits _⟩

/-- Witness for C3 at w = 8, N = 3. -/
theorem stdout_count_and_form_witness :
    2 ≤ 3 ∧
      ((stdoutOf 8 "fibonacci" [((3 : Nat) : Int)]).length = 3 ∧
        ∀ l ∈ stdoutOf 8 "fibonacci" [((3 : Nat) : Int)], ∃ v : Nat, l = natDecStr v ∧
          l.data ≠ [] ∧ ∀ c ∈ l.data, c.isDigit) :=
  ⟨by omega, stdout_count_and_form 8 3 "fibonacci" (by omega)⟩

/-- C4: for every N ≥ 2 given as the single argument, stderr consists of
exactly N-2 lines `Calculating index i`, one for each i from 2 to N-1 in
increasing order, and in the event trace the line for index i is emitted
before the element at index i is written. -/
theorem stderr_progress_lines (w N : Nat) (prog : String) (hN : 2 ≤ N) :
    (stderrOf w prog [(N : Int)]).length = N - 2 ∧
    stderrOf w prog [(N : Int)] =
      (List.range' 2 (N - 2)).map (fun i => "Calculating index " ++ natDecStr i) ∧
    ∀ i, 2 ≤ i → i < N → ∃ a b : Nat, a < b ∧ ∃ v : Nat,
      (runFib w prog [(N : Int)]).1[a]? =
        some (Ev.err ("Calculating index " ++ natDecStr i)) ∧
      (runFib w prog [(N : Int)]).1[b]? = some (Ev.write i v) := by
  refine ⟨?_, stderr_run w N prog hN, ?_⟩
  · rw [stderr_run w N prog hN]; simp
  · intro i h2 hi
    obtain ⟨a, b, hab, ha, hb⟩ := err_before_write w (N - 2) 2 i h2 (by omega)
    have hN' : ((N : Int)).toNat = N := Int.toNat_natCast N
    have htr := run_trace w prog (N : Int) (by rw [hN']; exact hN)
    rw [hN'] at htr
    have ha' : a < (fillTrace w (N - 2) 2).length := by
      rcases List.getElem?_eq_some.mp ha with ⟨h, _⟩; exact h
    have hb' : b < (fillTrace w (N - 2) 2).length := by
      rcases List.getElem?_eq_some.mp hb with ⟨h, _⟩; exact h
    refine ⟨a + 2, b + 2, by omega, fibSeq w i, ?_, ?_⟩
    · rw [htr, getElem?_cons_cons_append_left ha']
      exact ha
    · rw [htr, getElem?_cons_cons_append_left hb']
      exact hb

/-- Witness for C4 at w = 8, N = 4. -/
theorem stderr_progress_lines_witness :
    2 ≤ 4 ∧
      ((stderrOf 8 "fibonacci" [((4 : Nat) : Int)]).length = 4 - 2 ∧
        stderrOf 8 "fibonacci" [((4 : Nat) : Int)] =
          (List.range' 2 (4 - 2)).map (fun i => "Calculating index " ++ natDecStr i) ∧
        ∀ i, 2 ≤ i → i < 4 → ∃ a b : Nat, a < b ∧ ∃ v : Nat,
          (runFib 8 "fibonacci" [((4 : Nat) : Int)]).1[a]? =
            some (Ev.err ("Calculating index " ++ natDecStr i)) ∧
          (runFib 8 "fibonacci" [((4 : Nat) : Int)]).1[b]? = some (Ev.write i v)) :=
  ⟨by omega, stderr_progress_lines 8 4 "fibonacci" (by omega)⟩

/-- C5: with zero arguments or more than one argument, the program writes a
single line `Usage: <program-name> <index>` to stderr, performs no buffer
computation (no buffer writes or element accesses), and writes nothing to
stdout. -/
theorem usage_error_behavior (w : Nat) (prog : String) (args : List Int)
    (h : args.length ≠ 1) :
    stderrOf w prog args = ["Usage: " ++ prog ++ " <index>"] ∧
    stdoutOf w prog args = [] ∧
    writeIdxs (runFib w prog args).1 = [] ∧
    readIdxs (runFib w prog args).1 = [] := by
  match args with
  | [] => exact ⟨rfl, rfl, rfl, rfl⟩
  | [a] => exact absurd rfl h
  | a :: b :: rest => exact ⟨rfl, rfl, rfl, rfl⟩

/-- Witness for C5 with zero arguments. -/
theorem usage_error_behavior_witness :
    ([] : List Int).length ≠ 1 ∧
      (stderrOf 64 "fibonacci" [] = ["Usage: " ++ "fibonacci" ++ " <index>"] ∧
        stdoutOf 64 "fibonacci" [] = [] ∧
        writeIdxs (runFib 64 "fibonacci" []).1 = [] ∧
        readIdxs (runFib 64 "fibonacci" []).1 = []) :=
  ⟨by simp, usage_error_behavior 64 "fibonacci" [] (by simp)⟩

/-- C6: a run with single argument N always writes the seed indices 0 and 1
regardless of N, and all buffer writes and element accesses lie within
0..N-1 exactly when N ≥ 2 (so for N ∈ {0,1} some seed write is out of
bounds of the N-element buffer). -/
theorem seed_writes_bounds (w N : Nat) (prog : String) :
    0 ∈ writeIdxs (runFib w prog [(N : Int)]).1 ∧
    1 ∈ writeIdxs (runFib w prog [(N : Int)]).1 ∧
    (((∀ j ∈ writeIdxs (runFib w prog [(N : Int)]).1, j < N) ∧
      (∀ j ∈ readIdxs (runFib w prog [(N : Int)]).1, j < N)) ↔ 2 ≤ N) := by
  obtain ⟨t, ht⟩ : ∃ t, (runFib w prog [(N : Int)]).1 =
      Ev.write 0 0 :: Ev.write 1 1 :: t := ⟨_, rfl⟩
  have hmem0 : 0 ∈ writeIdxs (runFib w prog [(N : Int)]).1 := by
    rw [ht]; exact List.mem_cons_self 0 _
  have hmem1 : 1 ∈ writeIdxs (runFib w prog [(N : Int)]).1 := by
    rw [ht]; exact List.mem_cons_of_mem 0 (List.mem_cons_self 1 _)
  refine ⟨hmem0, hmem1, ?_, ?_⟩
  · rintro ⟨hw, -⟩
    have := hw 1 hmem1
    omega
  · intro hN
    have hN' : ((N : Int)).toNat = N := Int.toNat_natCast N
    have htr := run_trace w prog (N : Int) (by rw [hN']; exact hN)
    rw [hN'] at htr
    constructor
    · intro j hj
      rw [htr] at hj
      have hj' : j ∈ (0 : Nat) :: 1 :: writeIdxs
          (fillTrace w (N - 2) 2 ++
            printLoop ((List.range N).map (fibSeq w)) N 0) := hj
      rw [writeIdxs_append, writeIdxs_fillTrace, writeIdxs_printLoop,
        List.append_nil] at hj'
      rcases List.mem_cons.mp hj' with rfl | hj'
      · omega
      rcases List.mem_cons.mp hj' with rfl | hj'
      · omega
      · have := List.mem_range'_1.mp hj'
        omega
    · intro j hj
      rw [htr] at hj
      have hj' : j ∈ readIdxs
          (fillTrace w (N - 2) 2 ++
            printLoop ((List.range N).map (fibSeq w)) N 0) := hj
      rw [readIdxs_append, readIdxs_printLoop] at hj'
      rcases List.mem_append.mp hj' with hj' | hj'
      · have := readIdxs_fillTrace_lt w (N - 2) 2 j hj'
        omega
      · have := List.mem_range'_1.mp hj'
        omega

/-- C7: every invocation, whatever branch is taken (including the
usage-error branch), terminates with exit status 0. -/
theorem exit_status_zero (w : Nat) (prog : String) (args : List Int) :
    (runFib w prog args).2 = 0 := by
  match args with
  | [] => rfl
  | [a] => rfl
  | a :: b :: rest => rfl

/-- C8: no overflow detection exists: for every requested size N, every
stored value at an index i ≥ 2 is the fixed-width sum of the two preceding
values reduced modulo `2 ^ w` (hence below `2 ^ w`, silently wrapped), and
stderr carries only the progress lines, never an overflow diagnostic. -/
theorem overflow_silent_wrap (w N : Nat) (prog : String) :
    (∀ i v : Nat, Ev.write i v ∈ (runFib w prog [(N : Int)]).1 → 2 ≤ i →
      v = (fibSeq w (i - 1) + fibSeq w (i - 2)) % 2 ^ w ∧ v < 2 ^ w) ∧
    ∀ l ∈ stderrOf w prog [(N : Int)],
      ∃ i : Nat, l = "Calculating index " ++ natDecStr i := by
  rcases Nat.lt_or_ge N 2 with hN | hN
  · interval_cases N
    · constructor
      · intro i v hmem h2
        simp [runFib, fillLoop, printLoop] at hmem
        omega
      · intro l hl
        simp [stderrOf, errLines, runFib, fillLoop, printLoop] at hl
    · constructor
      · intro i v hmem h2
        simp [runFib, fillLoop, printLoop] at hmem
        omega
      · intro l hl
        simp [stderrOf, errLines, runFib, fillLoop, printLoop] at hl
  · constructor
    · intro i v hmem h2
      have hN' : ((N : Int)).toNat = N := Int.toNat_natCast N
      have htr := run_trace w prog (N : Int) (by rw [hN']; exact hN)
      rw [hN'] at htr
      rw [htr] at hmem
      rcases List.mem_cons.mp hmem with heq | hmem
      · simp at heq; omega
      rcases List.mem_cons.mp hmem with heq | hmem
      · simp at heq; omega
      rcases List.mem_append.mp hmem with hf | hp
      · have hev : (i, v) ∈ writeEvsOf (fillTrace w (N - 2) 2) :=
          List.mem_filterMap.mpr ⟨Ev.write i v, hf, rfl⟩
        rw [writeEvsOf_fillTrace] at hev
        obtain ⟨k, hk, hkv⟩ := List.mem_map.mp hev
        have hki : k = i := congrArg Prod.fst hkv
        have hkv' : fibSeq w k = v := congrArg Prod.snd hkv
        subst hki
        rw [← hkv', fibSeq_two_step w k h2]
        exact ⟨rfl, Nat.mod_lt _ (Nat.pos_pow_of_pos w (by norm_num))⟩
      · have hev : (i, v) ∈ writeEvsOf (printLoop ((List.range N).map (fibSeq w)) N 0) :=
          List.mem_filterMap.mpr ⟨Ev.write i v, hp, rfl⟩
        rw [writeEvsOf_printLoop] at hev
        simp at hev
    · rw [stderr_run w N prog hN]
      intro l hl
      obtain ⟨k, hk, rfl⟩ := List.mem_map.mp hl
      exact ⟨k, rfl⟩

/-- C9: every stdout line of every invocation is the unsigned decimal
rendering of a stored value in `[0, 2 ^ w)` — the nonnegative residue
modulo `2 ^ w` — made of decimal digits only and never containing a minus
sign (for any positive width w). -/
theorem unsigned_decimal_print (w : Nat) (prog : String) (args : List Int)
    (hw : 1 ≤ w) :
    ∀ l ∈ stdoutOf w prog args, ∃ v : Nat, v < 2 ^ w ∧ l = natDecStr v ∧
      ∀ c ∈ l.data, c.isDigit ∧ c ≠ '-' := by
  have hdig : ∀ v : Nat, ∀ c ∈ (natDecStr v).data, c.isDigit ∧ c ≠ '-' := fun v c hc =>
    ⟨natDecStr_digits v c hc, isDigit_ne_dash (natDecStr_digits v c hc)⟩
  match args with
  | [] => intro l hl; simp [stdoutOf, runFib, outLines] at hl
  | a :: b :: rest => intro l hl; simp [stdoutOf, runFib, outLines] at hl
  | [nArg] =>
      have hcase : nArg.toNat = 0 ∨ nArg.toNat = 1 ∨ 2 ≤ nArg.toNat := by omega
      rcases hcase with h0 | h1 | h2
      · intro l hl
        have hs : stdoutOf w prog [nArg] = [] := by
          simp [stdoutOf, runFib, h0, fillLoop, printLoop, outLines]
        rw [hs] at hl
        simp at hl
      · intro l hl
        have hs : stdoutOf w prog [nArg] = [natDecStr 0] := by
          simp [stdoutOf, runFib, h1, fillLoop, printLoop, outLines]
        rw [hs] at hl
        rcases List.mem_singleton.mp hl with rfl
        exact ⟨0, Nat.pos_pow_of_pos w (by norm_num), rfl, hdig 0⟩
      · intro l hl
        rw [stdout_run_any w prog nArg h2] at hl
        obtain ⟨k, hk, rfl⟩ := List.mem_map.mp hl
        exact ⟨fibSeq w k, fibSeq_lt w hw k, rfl, hdig _⟩

/-- Witness for C9 at w = 8, argument 5. -/
theorem unsigned_decimal_print_witness :
    1 ≤ 8 ∧
      ∀ l ∈ stdoutOf 8 "fibonacci" [(5 : Int)], ∃ v : Nat, v < 2 ^ 8 ∧ l = natDecStr v ∧
        ∀ c ∈ l.data, c.isDigit ∧ c ≠ '-' :=
  ⟨by omega, unsigned_decimal_print 8 "fibonacci" [(5 : Int)] (by omega)⟩

/-- C10: the program is deterministic — its observable behaviour (stdout,
stderr, exit status) is a function of the argument vector alone: two runs
on equal argument vectors agree observation-for-observation. -/
theorem run_deterministic (w : Nat) (prog : String) (args1 args2 : List Int)
    (h : args1 = args2) :
    stdoutOf w prog args1 = stdoutOf w prog args2 ∧
    stderrOf w prog args1 = stderrOf w prog args2 ∧
    (runFib w prog args1).2 = (runFib w prog args2).2 := by
  subst h
  exact ⟨rfl, rfl, rfl⟩

/-- Witness for C10 on the argument vector [7]. -/
theorem run_deterministic_witness :
    ([(7 : Int)] : List Int) = [(7 : Int)] ∧
      (stdoutOf 64 "fibonacci" [(7 : Int)] = stdoutOf 64 "fibonacci" [(7 : Int)] ∧
        stderrOf 64 "fibonacci" [(7 : Int)] = stderrOf 64 "fibonacci" [(7 : Int)] ∧
        (runFib 64 "fibonacci" [(7 : Int)]).2 = (runFib 64 "fibonacci" [(7 : Int)]).2) :=
  ⟨rfl, run_deterministic 64 "fibonacci" [(7 : Int)] [(7 : Int)] rfl⟩

end Fibc
